import Mathlib

/-
Verification of the batch scheduler, the on-disk opacity-micromap cache and
the geometry-rebuild sequencing of the Opacity MicroMap sample.

The definitions below are shallow embeddings of the corresponding C++ code:

* GetGpuBakerBatches (OmmSample.hpp): greedy budgeted batching of bake jobs.
  Per-job sizes and per-type budgets are lists indexed by resource type
  (OmmDataLayout::GpuOutputNum entries in the source).
* OmmCaching (OmmHelper.cpp): CalculateIdentifier, CalculateSateHash,
  PrewarmCache, LookForCache, ReadMaskFromCache, SaveMasksToDisc. Files are
  byte lists; the filesystem is an association list; machine integers are
  naturals reduced modulo 2 ^ 64 where the source wraps.
* RebuildOmmGeometryAsync / OmmGeometryUpdate / ReleaseMaskedGeometry
  (OmmSample.hpp): embedded as the ordered trace of the calls they perform.
-/

structure OmmBatch where
  offset : Nat
  count : Nat
deriving DecidableEq, Repr

structure SchedState where
  done : List OmmBatch
  cur : OmmBatch
  acc : List Nat
  i : Nat
deriving DecidableEq, Repr

/-- One iteration of the GetGpuBakerBatches loop. The accumulation
nextSizes[y] = accumulation[y] + dataSizes[y] is size_t arithmetic in the
source and wraps modulo 2 ^ 64. -/
def schedStep (budgets : List Nat) (batchMaxSize total : Nat)
    (st : SchedState) (sizes : List Nat) : SchedState :=
  let nextSizes := List.zipWith (fun a b => (a + b) % 2 ^ 64) st.acc sizes
  let isAnyOverLimit := (List.zip nextSizes budgets).any (fun p => decide (p.2 < p.1))
  if isAnyOverLimit then
    { done := st.done ++ [st.cur], cur := ⟨st.i, 1⟩, acc := sizes, i := st.i + 1 }
  else
    let cur := { st.cur with count := st.cur.count + 1 }
    if batchMaxSize ≤ cur.count ∧ st.i + 1 < total then
      { done := st.done ++ [cur], cur := ⟨st.i + 1, 0⟩,
        acc := st.acc.map (fun _ => 0), i := st.i + 1 }
    else
      { done := st.done, cur := cur, acc := nextSizes, i := st.i + 1 }

def getGpuBakerBatches (geometries : List (List Nat)) (budgets : List Nat)
    (batchSize : Nat) : List OmmBatch :=
  let batchMaxSize := if geometries.length < batchSize then geometries.length else batchSize
  let st := geometries.foldl (schedStep budgets batchMaxSize geometries.length)
    ⟨[], ⟨0, 0⟩, budgets.map (fun _ => 0), 0⟩
  st.done ++ [st.cur]

/-- Batches starting at position s and ending exactly at n, contiguously. -/
def IsPartition : List OmmBatch → Nat → Nat → Prop
  | [], s, n => s = n
  | b :: bs, s, n => b.offset = s ∧ IsPartition bs (s + b.count) n

/-- Partition invariant carried through the scheduler fold. -/
structure SchedInv (st : SchedState) : Prop where
  parts : IsPartition st.done 0 st.cur.offset
  cur_end : st.cur.offset + st.cur.count = st.i

/-- Sum over the jobs of a batch of the per-type size estimate for type y. -/
def typeSum (geometries : List (List Nat)) (y off cnt : Nat) : Nat :=
  (((geometries.drop off).take cnt).map (fun s => s.getD y 0)).sum

/-- Budget invariant carried through the scheduler fold. -/
structure BudgetInv (geometries : List (List Nat)) (budgets : List Nat) (st : SchedState) : Prop where
  basic : SchedInv st
  acc_len : st.acc.length = budgets.length
  acc_val : ∀ y < budgets.length, st.acc.getD y 0 = typeSum geometries y st.cur.offset st.cur.count
  acc_bdd : 1 < st.cur.count → ∀ y < budgets.length, st.acc.getD y 0 ≤ budgets.getD y 0
  done_ok : ∀ b ∈ st.done, 1 < b.count →
    ∀ y < budgets.length, typeSum geometries y b.offset b.count ≤ budgets.getD y 0

/-- Little-endian byte serialization of a natural number into k bytes. -/
def natLE : Nat → Nat → List Nat
  | _, 0 => []
  | n, k + 1 => n % 256 :: natLE (n / 256) k

/-- Read a little-endian byte list back into a natural number. -/
def leNat : List Nat → Nat
  | [] => 0
  | b :: bs => b % 256 + 256 * leNat bs

/-- The Cantor-style pairing fold of two 64-bit hashes (CalculateIdentifier),
with uint64 wrap-around. -/
def calculateIdentifier (a b : Nat) : Nat :=
  let s := (a + b) % 2 ^ 64
  let p := (s * ((s + 1) % 2 ^ 64)) % 2 ^ 64
  (p / 2 + b) % 2 ^ 64

/-- On-disk record header (OmmCaching::MaskHeader), with 5 per-segment sizes
(OmmDataLayout::CpuMaxNum). -/
structure MaskHeader where
  instanceHash : Nat
  stateHash : Nat
  sizes : List Nat
  blobSize : Nat
  ommIndexFormat : Nat
deriving DecidableEq, Repr

/-- sizeof(MaskHeader): 8 u64 fields, one u16 field, 6 bytes tail padding. -/
def HEADER_SIZE : Nat := 72

def encodeHeader (h : MaskHeader) : List Nat :=
  natLE h.instanceHash 8 ++ natLE h.stateHash 8 ++
    natLE (h.sizes.getD 0 0) 8 ++ natLE (h.sizes.getD 1 0) 8 ++ natLE (h.sizes.getD 2 0) 8 ++
    natLE (h.sizes.getD 3 0) 8 ++ natLE (h.sizes.getD 4 0) 8 ++
    natLE h.blobSize 8 ++ natLE h.ommIndexFormat 2 ++ [0, 0, 0, 0, 0, 0]

def decodeHeader (bs : List Nat) : MaskHeader :=
  { instanceHash := leNat (bs.take 8)
    stateHash := leNat ((bs.drop 8).take 8)
    sizes := [leNat (((bs.drop 8).drop 8).take 8),
      leNat ((((bs.drop 8).drop 8).drop 8).take 8),
      leNat (((((bs.drop 8).drop 8).drop 8).drop 8).take 8),
      leNat ((((((bs.drop 8).drop 8).drop 8).drop 8).drop 8).take 8),
      leNat (((((((bs.drop 8).drop 8).drop 8).drop 8).drop 8).drop 8).take 8)]
    blobSize := leNat ((((((((bs.drop 8).drop 8).drop 8).drop 8).drop 8).drop 8).drop 8).take 8)
    ommIndexFormat :=
      leNat (((((((((bs.drop 8).drop 8).drop 8).drop 8).drop 8).drop 8).drop 8).drop 8).take 2) }

def normalizeHeader (h : MaskHeader) : MaskHeader :=
  { instanceHash := h.instanceHash % 2 ^ 64
    stateHash := h.stateHash % 2 ^ 64
    sizes := [h.sizes.getD 0 0 % 2 ^ 64, h.sizes.getD 1 0 % 2 ^ 64, h.sizes.getD 2 0 % 2 ^ 64,
      h.sizes.getD 3 0 % 2 ^ 64, h.sizes.getD 4 0 % 2 ^ 64]
    blobSize := h.blobSize % 2 ^ 64
    ommIndexFormat := h.ommIndexFormat % 2 ^ 16 }

/-- The filesystem visible to the cache: filename to byte content. -/
abbrev FileSys := List (String × List Nat)

def fsRemove (fs : FileSys) (name : String) : FileSys :=
  fs.filter (fun p => p.1 != name)

def fsSet (fs : FileSys) (name : String) (content : List Nat) : FileSys :=
  (name, content) :: fsRemove fs name

/-- std::map::insert: keeps the existing entry when the key is present. -/
def mapInsert (k v : Nat) (m : List (Nat × Nat)) : List (Nat × Nat) :=
  if (m.lookup k).isSome then m else (k, v) :: m

/-- Global cache state: the filesystem and the process-wide
m_IdentifierToDataOffset map. -/
structure CacheSys where
  fs : FileSys
  index : List (Nat × Nat)
deriving DecidableEq, Repr

/-- OmmCaching::PrewarmCache scan loop over an open file. Returns the built
index, or none when a declared chunk would read past the end of file (the
caller then deletes the file and clears the index). -/
def prewarmLoop (file : List Nat) (pos : Nat) (idx : List (Nat × Nat)) :
    Option (List (Nat × Nat)) :=
  if h1 : file.length < pos + HEADER_SIZE then none
  else
    let header := decodeHeader ((file.drop pos).take HEADER_SIZE)
    let idx2 := mapInsert (calculateIdentifier header.stateHash header.instanceHash) pos idx
    if h2 : file.length < pos + HEADER_SIZE + header.blobSize then none
    else if pos + HEADER_SIZE + header.blobSize = file.length then some idx2
    else prewarmLoop file (pos + HEADER_SIZE + header.blobSize) idx2
termination_by file.length - pos
decreasing_by
  simp only [HEADER_SIZE] at h1 h2 ⊢
  omega

/-- OmmCaching::LookForCache: prewarm on first use (empty index), then a map
lookup. Returns the updated state and the data offset when found. -/
def lookForCache (sys : CacheSys) (filename : String) (stateMask hash : Nat) :
    CacheSys × Option Nat :=
  let sys1 :=
    if sys.index.isEmpty then
      match sys.fs.lookup filename with
      | none => sys
      | some file =>
        match prewarmLoop file 0 sys.index with
        | some idx => { sys with index := idx }
        | none => { fs := fsRemove sys.fs filename, index := [] }
    else sys
  (sys1, sys1.index.lookup (calculateIdentifier stateMask hash))

/-- The per-segment copy loop of ReadMaskFromCache: a null destination is
skipped without consuming the blob prefix. -/
def readSegments : List Nat → List Bool → List Nat → List (Option (List Nat))
  | _, [], _ => []
  | blob, w :: ws, [] =>
    if w then some [] :: readSegments blob ws [] else none :: readSegments blob ws []
  | blob, w :: ws, s :: ss =>
    if w then some (blob.take s) :: readSegments (blob.drop s) ws ss
    else none :: readSegments blob ws ss

/-- OmmCaching::ReadMaskFromCache. want[i] tells whether the caller passed a
non-null destination for segment i. Returns the new state and, on success,
the copied segments, the header size table and the stored index format. -/
def readMaskFromCache (sys : CacheSys) (filename : String) (want : List Bool)
    (stateMask hash : Nat) :
    CacheSys × Option (List (Option (List Nat)) × List Nat × Nat) :=
  match lookForCache sys filename stateMask hash with
  | (sys1, none) => (sys1, none)
  | (sys1, some off) =>
    match sys1.fs.lookup filename with
    | none => ({ sys1 with index := [] }, none)
    | some file =>
      if file.length < off + HEADER_SIZE then
        ({ fs := fsRemove sys1.fs filename, index := [] }, none)
      else
        let header := decodeHeader ((file.drop off).take HEADER_SIZE)
        if file.length < off + HEADER_SIZE + header.blobSize then
          ({ fs := fsRemove sys1.fs filename, index := [] }, none)
        else
          let blob := (file.drop (off + HEADER_SIZE)).take header.blobSize
          (sys1, some (readSegments blob want header.sizes, header.sizes, header.ommIndexFormat))

/-- The OmmData in/out struct: 5 optional segment pointers and 5 sizes. -/
structure OmmData where
  data : List (Option (List Nat))
  sizes : List Nat
deriving DecidableEq, Repr

/-- The blob written by SaveMasksToDisc: segment i contributes sizes[i] bytes
read from its pointer. -/
def segmentBlob (d : OmmData) : List Nat :=
  ((List.range 5).map (fun i => ((d.data.getD i none).getD []).take (d.sizes.getD i 0))).join

/-- The header record SaveMasksToDisc fills in before writing. -/
def mkSaveHeader (d : OmmData) (stateMask hash ommIndexFormat : Nat) : MaskHeader :=
  { instanceHash := hash
    stateHash := stateMask
    sizes := [d.sizes.getD 0 0, d.sizes.getD 1 0, d.sizes.getD 2 0,
      d.sizes.getD 3 0, d.sizes.getD 4 0]
    blobSize := ((List.range 5).map (fun i => d.sizes.getD i 0)).sum
    ommIndexFormat := ommIndexFormat % 2 ^ 16 }

/-- OmmCaching::SaveMasksToDisc: no-op when the key is already cached;
otherwise opens in append mode (creating the file) and, unless the total blob
size is zero, appends header + blob and records the offset in the index. -/
def saveMasksToDisc (sys : CacheSys) (filename : String) (d : OmmData)
    (stateMask hash : Nat) (ommIndexFormat : Nat) : CacheSys :=
  match lookForCache sys filename stateMask hash with
  | (sys1, some _) => sys1
  | (sys1, none) =>
    let file := (sys1.fs.lookup filename).getD []
    let fileSize := file.length
    let blobSize := ((List.range 5).map (fun i => d.sizes.getD i 0)).sum
    if blobSize = 0 then { sys1 with fs := fsSet sys1.fs filename file }
    else
      { fs := fsSet sys1.fs filename
          (file ++ encodeHeader (mkSaveHeader d stateMask hash ommIndexFormat) ++ segmentBlob d)
        index := mapInsert (calculateIdentifier stateMask hash) fileSize sys1.index }

/-- One on-disk cache record: header followed by its blob. -/
structure CacheRecord where
  header : MaskHeader
  blob : List Nat
deriving DecidableEq, Repr

def serializeRecord (r : CacheRecord) : List Nat := encodeHeader r.header ++ r.blob

def serializeRecords (rs : List CacheRecord) : List Nat := (rs.map serializeRecord).join

/-- Well-formed record: blob length matches the declared (nonzero) blob size. -/
def RecordWF (r : CacheRecord) : Prop :=
  r.blob.length = r.header.blobSize ∧ 0 < r.header.blobSize ∧ r.header.blobSize < 2 ^ 64

instance (r : CacheRecord) : Decidable (RecordWF r) := by
  unfold RecordWF
  infer_instance

/-- Byte offsets of record boundaries in a serialized record list. -/
def boundaryNats : List CacheRecord → List Nat
  | [] => [0]
  | r :: rs => 0 :: (boundaryNats rs).map (fun b => HEADER_SIZE + r.header.blobSize + b)

/-- FNV-1a over a byte list, 64-bit. -/
def fnv1a64 (bytes : List Nat) : Nat :=
  bytes.foldl (fun h b => ((h ^^^ b) * 1099511628211) % 2 ^ 64) 14695981039346656037

structure CpuBakerFlags where
  enableInternalThreads : Bool
  enableSpecialIndices : Bool
  enableDuplicateDetection : Bool
  enableNearDuplicateDetection : Bool
  force32bitIndices : Bool
deriving DecidableEq, Repr

structure GpuBakerFlags where
  enablePostBuildInfo : Bool
  enableSpecialIndices : Bool
  enableTexCoordDeduplication : Bool
  force32bitIndices : Bool
  computeOnlyWorkload : Bool
deriving DecidableEq, Repr

/-- OmmBakeDesc. Enum fields are their uint32 values (type: 0 = GPU, 1 = CPU);
dynamicSubdivisionScale is the 32-bit pattern of the float field, hashed as
raw bytes. -/
structure OmmBakeDesc where
  subdivisionLevel : Nat
  mipBias : Nat
  mipCount : Nat
  buildFrameId : Nat
  dynamicSubdivisionScale : Nat
  filter : Nat
  format : Nat
  type : Nat
  cpuFlags : CpuBakerFlags
  gpuFlags : GpuBakerFlags
  enableDebugMode : Bool
  enableCache : Bool
deriving DecidableEq, Repr

def boolByte (b : Bool) : Nat := if b then 1 else 0

/-- Byte image of CommonState (fields in declaration order, u32 little-endian). -/
def commonStateBytes (d : OmmBakeDesc) : List Nat :=
  natLE d.subdivisionLevel 4 ++ natLE d.mipBias 4 ++ natLE d.filter 4 ++
    natLE d.format 4 ++ natLE d.type 4 ++ natLE d.dynamicSubdivisionScale 4

/-- Byte image of GpuState: CommonState, 5 flag bytes, 3 bytes tail padding
(zeroed by the memset), sizeof = 32. -/
def gpuStateBytes (d : OmmBakeDesc) : List Nat :=
  commonStateBytes d ++
    [boolByte d.gpuFlags.enablePostBuildInfo, boolByte d.gpuFlags.enableSpecialIndices,
      boolByte d.gpuFlags.enableTexCoordDeduplication, boolByte d.gpuFlags.force32bitIndices,
      boolByte d.gpuFlags.computeOnlyWorkload] ++ [0, 0, 0]

/-- Byte image of CpuState: CommonState, 5 flag bytes, 3 bytes alignment
padding, mipCount, sizeof = 36. -/
def cpuStateBytes (d : OmmBakeDesc) : List Nat :=
  commonStateBytes d ++
    [boolByte d.cpuFlags.enableInternalThreads, boolByte d.cpuFlags.enableSpecialIndices,
      boolByte d.cpuFlags.enableDuplicateDetection,
      boolByte d.cpuFlags.enableNearDuplicateDetection,
      boolByte d.cpuFlags.force32bitIndices] ++ [0, 0, 0] ++ natLE d.mipCount 4

/-- OmmCaching::CalculateSateHash (name kept from the source). -/
def calculateSateHash (d : OmmBakeDesc) : Nat :=
  fnv1a64 (if d.type = 0 then gpuStateBytes d else cpuStateBytes d)

/-- The defaults of OmmBakeDesc in the source (1.0f has bit pattern
0x3F800000). -/
def defaultBakeDesc : OmmBakeDesc :=
  { subdivisionLevel := 9, mipBias := 0, mipCount := 1, buildFrameId := 0,
    dynamicSubdivisionScale := 1065353216, filter := 1, format := 1, type := 0,
    cpuFlags := ⟨true, true, true, false, false⟩,
    gpuFlags := ⟨true, true, true, false, true⟩,
    enableDebugMode := false, enableCache := false }

/-- Events of one geometry rebuild, in the order the source performs them. -/
inductive OmmEvent where
  | clearLookupTable
  | waitFrames
  | releaseMaskedGeometry
  | fillBakerInputs
  | cacheLookup (batch : Nat)
  | bake (batch : Nat)
  | saveCache (batch : Nat)
  | buildArtifacts (batch : Nat)
  | releaseBatchMemory (batch : Nat)
  | releaseBakingResources
deriving DecidableEq

/-- Call order of Sample::OmmGeometryUpdate: ReleaseMaskedGeometry first,
then input preparation, then the per-batch loop, then cleanup. Steps that
the source guards with flags (bake, cache save, build) are listed as
performed when enabled. -/
def ommGeometryUpdateTrace (nBatches : Nat) : List OmmEvent :=
  OmmEvent.releaseMaskedGeometry :: OmmEvent.fillBakerInputs ::
    (((List.range nBatches).map (fun b =>
      [OmmEvent.cacheLookup b, OmmEvent.bake b, OmmEvent.saveCache b,
        OmmEvent.buildArtifacts b, OmmEvent.releaseBatchMemory b])).join ++
      [OmmEvent.releaseBakingResources])

/-- Call order of Sample::RebuildOmmGeometryAsync: the lookup table
m_InstanceMaskToMaskedBlasData is cleared first, then the frame wait loop,
then OmmGeometryUpdate. -/
def rebuildOmmGeometryAsyncTrace (nBatches : Nat) : List OmmEvent :=
  OmmEvent.clearLookupTable :: OmmEvent.waitFrames :: ommGeometryUpdateTrace nBatches

/-- Concrete OmmData used to instantiate the cache theorems. -/
def exampleOmmData : OmmData :=
  ⟨[some [1, 2, 3], some [4], some [], some [], some []], [3, 1, 0, 0, 0]⟩

/-- Concrete well-formed cache record used to instantiate the corruption
theorem. -/
def exampleRecord : CacheRecord :=
  ⟨⟨1, 2, [4, 0, 0, 0, 0], 4, 7⟩, [9, 9, 9, 9]⟩

theorem isPartition_append {bs cs : List OmmBatch} {s n m : Nat}
    (h1 : IsPartition bs s m) (h2 : IsPartition cs m n) :
    IsPartition (bs ++ cs) s n := by
  induction bs generalizing s with
  | nil =>
    simp only [IsPartition] at h1
    subst h1
    simpa using h2
  | cons b bs ih =>
    obtain ⟨hb, hrest⟩ := h1
    exact ⟨hb, ih hrest⟩

theorem schedStep_inv (budgets : List Nat) (batchMaxSize total : Nat)
    (st : SchedState) (sizes : List Nat) (h : SchedInv st) :
    SchedInv (schedStep budgets batchMaxSize total st sizes) ∧
      (schedStep budgets batchMaxSize total st sizes).i = st.i + 1 := by
  unfold schedStep
  dsimp only
  split
  · refine ⟨⟨?_, ?_⟩, rfl⟩
    · exact isPartition_append h.parts (by simp [IsPartition, h.cur_end])
    · simp [h.cur_end]
  · split
    · refine ⟨⟨?_, ?_⟩, rfl⟩
      · refine isPartition_append h.parts ?_
        have := h.cur_end
        simp [IsPartition]
        omega
      · simp
    · refine ⟨⟨h.parts, ?_⟩, rfl⟩
      have := h.cur_end
      simp
      omega

theorem sched_fold_inv (budgets : List Nat) (batchMaxSize total : Nat) :
    ∀ (l : List (List Nat)) (st : SchedState),
      SchedInv st →
      SchedInv (l.foldl (schedStep budgets batchMaxSize total) st) ∧
        (l.foldl (schedStep budgets batchMaxSize total) st).i = st.i + l.length := by
  intro l
  induction l with
  | nil => intro st h; exact ⟨h, rfl⟩
  | cons s l ih =>
    intro st h
    obtain ⟨h1, h2⟩ := schedStep_inv budgets batchMaxSize total st s h
    obtain ⟨h3, h4⟩ := ih _ h1
    refine ⟨h3, ?_⟩
    simp only [List.foldl_cons, h4, h2, List.length_cons]
    omega

theorem getGpuBakerBatches_partition (geometries : List (List Nat)) (budgets : List Nat)
    (batchSize : Nat) :
    IsPartition (getGpuBakerBatches geometries budgets batchSize) 0 geometries.length := by
  unfold getGpuBakerBatches
  dsimp only
  have h0 : SchedInv ⟨[], ⟨0, 0⟩, budgets.map (fun _ => 0), 0⟩ :=
    ⟨by simp [IsPartition], by simp⟩
  obtain ⟨hinv, hi⟩ := sched_fold_inv budgets
    (if geometries.length < batchSize then geometries.length else batchSize)
    geometries.length geometries _ h0
  refine isPartition_append hinv.parts ⟨rfl, ?_⟩
  show _ + _ = _
  have h1 := hinv.cur_end
  rw [h1, hi]
  simp

/-- In a partition starting at m, every batch offset is at least m. -/
theorem isPartition_offset_mono : ∀ (cs : List OmmBatch) (m r : Nat), IsPartition cs m r →
    ∀ i, i < cs.length → m ≤ (cs.getD i ⟨0, 0⟩).offset := by
  intro cs
  induction cs with
  | nil => intro m r _ i hi; simp at hi
  | cons c cs ih2 =>
    intro m r hcp i hi
    obtain ⟨hc1, hc2⟩ := hcp
    cases i with
    | zero => simp [hc1]
    | succ i =>
      have := ih2 _ _ hc2 i (by simpa using hi)
      simp only [List.getD_cons_succ]
      omega

/-- From a partition, every index in the covered range lies in exactly one batch. -/
theorem isPartition_unique_mem : ∀ (bs : List OmmBatch) (s n : Nat), IsPartition bs s n →
    ∀ j, s ≤ j → j < n →
    ∃! k : Nat, k < bs.length ∧ (bs.getD k ⟨0, 0⟩).offset ≤ j ∧
      j < (bs.getD k ⟨0, 0⟩).offset + (bs.getD k ⟨0, 0⟩).count := by
  intro bs
  induction bs with
  | nil =>
    intro s n hp j hj1 hj2
    simp only [IsPartition] at hp
    omega
  | cons b bs ih =>
    intro s n hp j hj1 hj2
    obtain ⟨hb, hrest⟩ := hp
    by_cases hc : j < b.offset + b.count
    · refine ⟨0, ⟨by simp, by simpa [hb] using hj1, by simpa using hc⟩, ?_⟩
      intro k hk
      by_contra hk0
      have hkpos : 0 < k := Nat.pos_of_ne_zero (fun h => hk0 (h ▸ rfl))
      obtain ⟨k, rfl⟩ := Nat.exists_eq_add_of_lt hkpos
      have h1 := hk.2.1
      have h2 := hk.1
      have h3 := isPartition_offset_mono bs _ _ hrest (0 + k) (by simpa using h2)
      simp only [Nat.zero_add] at h3
      have h4 : (bs.getD k ⟨0, 0⟩).offset ≤ j := by simpa using h1
      omega
    · have hj1' : s + b.count ≤ j := by
        have hbj : b.offset + b.count ≤ j := by omega
        omega
      obtain ⟨k, hk, huniq⟩ := ih _ _ hrest j hj1' hj2
      refine ⟨k + 1, ⟨by simpa using hk.1, by simpa using hk.2.1, by simpa using hk.2.2⟩, ?_⟩
      intro m hm
      cases m with
      | zero =>
        exfalso
        have := hm.2.2
        simp only [List.getD_cons_zero] at this
        omega
      | succ m =>
        have := huniq m ⟨by simpa using hm.1, by simpa using hm.2.1, by simpa using hm.2.2⟩
        omega

theorem typeSum_zero (geometries : List (List Nat)) (y off : Nat) :
    typeSum geometries y off 0 = 0 := by
  simp [typeSum]

theorem typeSum_extend (geometries : List (List Nat)) (off cnt idx : Nat) (sizes : List Nat)
    (hoff : off + cnt = idx) (hget : geometries[idx]? = some sizes) (y : Nat) :
    typeSum geometries y off (cnt + 1) = typeSum geometries y off cnt + sizes.getD y 0 := by
  unfold typeSum
  rw [List.take_succ]
  have hd : (geometries.drop off)[cnt]? = some sizes := by
    rw [List.getElem?_drop, hoff, hget]
  rw [hd]
  simp

theorem typeSum_single (geometries : List (List Nat)) (idx : Nat) (sizes : List Nat)
    (hget : geometries[idx]? = some sizes) (y : Nat) :
    typeSum geometries y idx 1 = sizes.getD y 0 := by
  have := typeSum_extend geometries idx 0 idx sizes (by omega) hget y
  simpa [typeSum_zero] using this

theorem not_over_bound {nextSizes budgets : List Nat}
    (hlen : nextSizes.length = budgets.length)
    (hover : ((List.zip nextSizes budgets).any (fun p => decide (p.2 < p.1))) = false) :
    ∀ y < budgets.length, nextSizes.getD y 0 ≤ budgets.getD y 0 := by
  intro y hy
  have hy' : y < nextSizes.length := by omega
  have hmem : (nextSizes.getD y 0, budgets.getD y 0) ∈ List.zip nextSizes budgets := by
    have hz : y < (List.zip nextSizes budgets).length := by
      simp [List.length_zip]
      omega
    have hmm := List.getElem_mem hz
    rw [List.getElem_zip] at hmm
    rw [List.getD_eq_getElem _ _ hy', List.getD_eq_getElem _ _ hy]
    exact hmm
  have := List.any_eq_false.mp hover _ hmem
  simpa using this

theorem zipWith_addmod_getD (a b : List Nat) (hlen : a.length = b.length) {y : Nat}
    (hy : y < a.length) :
    (List.zipWith (fun x z => (x + z) % 2 ^ 64) a b).getD y 0 =
      (a.getD y 0 + b.getD y 0) % 2 ^ 64 := by
  have hz : y < (List.zipWith (fun x z => (x + z) % 2 ^ 64) a b).length := by
    simp [List.length_zipWith]
    omega
  rw [List.getD_eq_getElem _ _ hz, List.getD_eq_getElem _ _ hy,
    List.getD_eq_getElem _ _ (show y < b.length by omega)]
  simp

theorem sum_map_take_le {α : Type} (f : α → Nat) (l : List α) (n : Nat) :
    ((l.take n).map f).sum ≤ (l.map f).sum := by
  induction l generalizing n with
  | nil => simp
  | cons a l ih =>
    cases n with
    | zero => simp
    | succ n =>
      simp only [List.take_succ_cons, List.map_cons, List.sum_cons]
      have := ih n
      omega

theorem sum_map_drop_le {α : Type} (f : α → Nat) (l : List α) (n : Nat) :
    ((l.drop n).map f).sum ≤ (l.map f).sum := by
  induction l generalizing n with
  | nil => simp
  | cons a l ih =>
    cases n with
    | zero => simp
    | succ n =>
      simp only [List.drop_succ_cons, List.map_cons, List.sum_cons]
      have := ih n
      omega

theorem typeSum_le_total (geometries : List (List Nat)) (y off cnt : Nat) :
    typeSum geometries y off cnt ≤ typeSum geometries y 0 geometries.length := by
  unfold typeSum
  rw [List.drop_zero, List.take_length]
  calc ((List.take cnt (List.drop off geometries)).map (fun s => s.getD y 0)).sum ≤
      ((List.drop off geometries).map (fun s => s.getD y 0)).sum :=
        sum_map_take_le (fun s => s.getD y 0) (List.drop off geometries) cnt
    _ ≤ (geometries.map (fun s => s.getD y 0)).sum :=
        sum_map_drop_le (fun s => s.getD y 0) geometries off

theorem getD_map_zero (l : List Nat) (y : Nat) :
    (l.map (fun _ => (0 : Nat))).getD y 0 = 0 := by
  induction l generalizing y with
  | nil => simp
  | cons a l ih =>
    cases y with
    | zero => simp
    | succ y => simpa using ih y

theorem budgetInv_step (geometries : List (List Nat)) (budgets : List Nat) (batchMaxSize : Nat)
    (st : SchedState) (sizes : List Nat)
    (h : BudgetInv geometries budgets st)
    (hget : geometries[st.i]? = some sizes)
    (hslen : sizes.length = budgets.length)
    (htot : ∀ y < budgets.length, typeSum geometries y 0 geometries.length < 2 ^ 64) :
    BudgetInv geometries budgets (schedStep budgets batchMaxSize geometries.length st sizes) := by
  have hcur_end := h.basic.cur_end
  have hparts := h.basic.parts
  have hacc_len := h.acc_len
  have hnext_len : (List.zipWith (fun a b => (a + b) % 2 ^ 64) st.acc sizes).length =
      budgets.length := by
    simp [List.length_zipWith]
    omega
  unfold schedStep
  dsimp only
  split
  case isTrue hover =>
    refine ⟨⟨?_, ?_⟩, hslen, ?_, ?_, ?_⟩
    · exact isPartition_append hparts (by simp [IsPartition, hcur_end])
    · simp [hcur_end]
    · intro y hy
      exact (typeSum_single geometries st.i sizes hget y).symm
    · intro hc; simp at hc
    · intro b hb
      rcases List.mem_append.mp hb with hmem | hmem
      · exact h.done_ok b hmem
      · simp only [List.mem_singleton] at hmem
        subst hmem
        intro hc y hy
        rw [← h.acc_val y hy]
        exact h.acc_bdd hc y hy
  case isFalse hover =>
    have hbound : ∀ y < budgets.length,
        (List.zipWith (fun a b => (a + b) % 2 ^ 64) st.acc sizes).getD y 0 ≤
          budgets.getD y 0 :=
      not_over_bound hnext_len (by simpa using hover)
    have hval : ∀ y < budgets.length,
        (List.zipWith (fun a b => (a + b) % 2 ^ 64) st.acc sizes).getD y 0 =
        typeSum geometries y st.cur.offset (st.cur.count + 1) := by
      intro y hy
      rw [zipWith_addmod_getD st.acc sizes (show st.acc.length = sizes.length by omega)
        (show y < st.acc.length by omega), h.acc_val y hy,
        ← typeSum_extend geometries st.cur.offset st.cur.count st.i sizes hcur_end hget y]
      exact Nat.mod_eq_of_lt (Nat.lt_of_le_of_lt
        (typeSum_le_total geometries y st.cur.offset (st.cur.count + 1)) (htot y hy))
    split
    case isTrue hcap =>
      refine ⟨⟨?_, ?_⟩, by simpa using hacc_len, ?_, ?_, ?_⟩
      · refine isPartition_append hparts ?_
        simp [IsPartition]
        omega
      · simp
      · intro y hy
        simp [getD_map_zero, typeSum_zero]
      · intro hc; simp at hc
      · intro b hb
        rcases List.mem_append.mp hb with hmem | hmem
        · exact h.done_ok b hmem
        · simp only [List.mem_singleton] at hmem
          subst hmem
          intro hc y hy
          dsimp only
          rw [← hval y hy]
          exact hbound y hy
    case isFalse hcap =>
      refine ⟨⟨hparts, ?_⟩, hnext_len, ?_, ?_, h.done_ok⟩
      · simp
        omega
      · intro y hy
        exact hval y hy
      · intro hc y hy
        exact hbound y hy

theorem budgetInv_fold (geometries : List (List Nat)) (budgets : List Nat) (batchMaxSize : Nat)
    (hall : ∀ s ∈ geometries, s.length = budgets.length)
    (htot : ∀ y < budgets.length, typeSum geometries y 0 geometries.length < 2 ^ 64) :
    ∀ (rest : List (List Nat)) (st : SchedState),
      rest = geometries.drop st.i →
      BudgetInv geometries budgets st →
      BudgetInv geometries budgets
        (rest.foldl (schedStep budgets batchMaxSize geometries.length) st) := by
  intro rest
  induction rest with
  | nil => intro st _ h; exact h
  | cons s rest ih =>
    intro st hdrop h
    have hget : geometries[st.i]? = some s := by
      have h0 : (geometries.drop st.i)[0]? = some s := by rw [← hdrop]; simp
      rw [List.getElem?_drop] at h0
      simpa using h0
    have hmem : s ∈ geometries := List.getElem?_mem hget
    have hstep := budgetInv_step geometries budgets batchMaxSize st s h hget (hall s hmem) htot
    have hi := (schedStep_inv budgets batchMaxSize geometries.length st s h.basic).2
    simp only [List.foldl_cons]
    apply ih _ ?_ hstep
    rw [hi]
    rw [← List.drop_drop]
    rw [← hdrop]
    rfl

theorem getGpuBakerBatches_budget (geometries : List (List Nat)) (budgets : List Nat)
    (batchSize : Nat) (hall : ∀ s ∈ geometries, s.length = budgets.length)
    (htot : ∀ y < budgets.length, typeSum geometries y 0 geometries.length < 2 ^ 64) :
    ∀ b ∈ getGpuBakerBatches geometries budgets batchSize, 1 < b.count →
      ∀ y < budgets.length, typeSum geometries y b.offset b.count ≤ budgets.getD y 0 := by
  unfold getGpuBakerBatches
  dsimp only
  have h0 : BudgetInv geometries budgets ⟨[], ⟨0, 0⟩, budgets.map (fun _ => 0), 0⟩ := by
    refine ⟨⟨by simp [IsPartition], by simp⟩, by simp, ?_, ?_, by simp⟩
    · intro y hy
      simp [getD_map_zero, typeSum_zero]
    · intro hc; simp at hc
  have hfold := budgetInv_fold geometries budgets
    (if geometries.length < batchSize then geometries.length else batchSize)
    hall htot geometries _ (by simp) h0
  intro b hb
  rcases List.mem_append.mp hb with hmem | hmem
  · exact hfold.done_ok b hmem
  · simp only [List.mem_singleton] at hmem
    subst hmem
    intro hc y hy
    rw [← hfold.acc_val y hy]
    exact hfold.acc_bdd hc y hy

theorem natLE_length (n k : Nat) : (natLE n k).length = k := by
  induction k generalizing n with
  | zero => rfl
  | succ k ih => simp [natLE, ih]

theorem leNat_natLE (n k : Nat) : leNat (natLE n k) = n % 256 ^ k := by
  induction k generalizing n with
  | zero => simp [natLE, leNat, Nat.mod_one]
  | succ k ih =>
    simp only [natLE, leNat, ih]
    rw [pow_succ, mul_comm (256 ^ k) 256, Nat.mod_mul]
    omega

theorem take_append_of_length {α : Type} (xs ys : List α) {n : Nat} (h : xs.length = n) :
    (xs ++ ys).take n = xs := by
  subst h
  simp

theorem drop_append_of_length {α : Type} (xs ys : List α) {n : Nat} (h : xs.length = n) :
    (xs ++ ys).drop n = ys := by
  subst h
  simp

theorem encodeHeader_length (h : MaskHeader) : (encodeHeader h).length = HEADER_SIZE := by
  simp [encodeHeader, natLE_length, HEADER_SIZE]

theorem drop8_natLEapp (v : Nat) (ys : List Nat) : (natLE v 8 ++ ys).drop 8 = ys :=
  drop_append_of_length _ _ (natLE_length v 8)

theorem take8_natLEapp (v : Nat) (ys : List Nat) : (natLE v 8 ++ ys).take 8 = natLE v 8 :=
  take_append_of_length _ _ (natLE_length v 8)

theorem decodeHeader_encodeHeader (h : MaskHeader) (rest : List Nat) :
    decodeHeader (encodeHeader h ++ rest) = normalizeHeader h := by
  have h64 : (256 : Nat) ^ 8 = 2 ^ 64 := by norm_num
  have h16 : (256 : Nat) ^ 2 = 2 ^ 16 := by norm_num
  simp [decodeHeader, encodeHeader, normalizeHeader, List.append_assoc,
    drop8_natLEapp, take8_natLEapp, leNat_natLE, h64, h16,
    take_append_of_length _ _ (natLE_length _ 2)]

theorem lookup_fsSet_self (fs : FileSys) (n : String) (c : List Nat) :
    (fsSet fs n c).lookup n = some c := by
  simp [fsSet, List.lookup]

theorem lookup_fsRemove_self (fs : FileSys) (n : String) :
    (fsRemove fs n).lookup n = none := by
  induction fs with
  | nil => rfl
  | cons p fs ih =>
    simp only [fsRemove, List.filter] at ih ⊢
    by_cases h : p.1 = n
    · simp [h, ih]
    · have hb : (p.1 != n) = true := by simpa using h
      rw [hb]
      simp only [List.lookup]
      have hbe : (n == p.1) = false := by
        simp [BEq.beq]
        intro hc
        exact h hc.symm
      rw [hbe]
      exact ih

/-- A length-5 list is its own 5-tuple of getD values. -/
theorem list5_eta {α : Type} (d : α) (s : List α) (h : s.length = 5) :
    s = [s.getD 0 d, s.getD 1 d, s.getD 2 d, s.getD 3 d, s.getD 4 d] := by
  match s, h with
  | [a, b, c, e, f], _ => rfl

/-- C10 core: with a non-empty index no prewarm happens; the answer comes from
the index alone and the filesystem is neither read nor modified. -/
theorem lookForCache_nonempty_index (sys : CacheSys) (filename : String)
    (stateMask hash : Nat) (h : sys.index ≠ []) :
    lookForCache sys filename stateMask hash =
      (sys, sys.index.lookup (calculateIdentifier stateMask hash)) := by
  unfold lookForCache
  have : sys.index.isEmpty = false := by
    cases hidx : sys.index with
    | nil => exact absurd hidx h
    | cons a l => rfl
  simp [this]

theorem lookForCache_snd (sys : CacheSys) (filename : String) (sm hs : Nat) :
    lookForCache sys filename sm hs =
      ((lookForCache sys filename sm hs).1,
        (lookForCache sys filename sm hs).1.index.lookup (calculateIdentifier sm hs)) := by
  unfold lookForCache
  rfl

theorem saveMasksToDisc_eq_of_miss (sys : CacheSys) (filename : String) (d : OmmData)
    (sm hs fmt : Nat)
    (hmiss : (lookForCache sys filename sm hs).2 = none)
    (hpos : ((List.range 5).map (fun i => d.sizes.getD i 0)).sum ≠ 0) :
    saveMasksToDisc sys filename d sm hs fmt =
      { fs := fsSet (lookForCache sys filename sm hs).1.fs filename
          ((((lookForCache sys filename sm hs).1.fs.lookup filename).getD []) ++
            encodeHeader (mkSaveHeader d sm hs fmt) ++ segmentBlob d)
        index := (calculateIdentifier sm hs,
            ((((lookForCache sys filename sm hs).1.fs.lookup filename).getD []).length)) ::
          (lookForCache sys filename sm hs).1.index } := by
  have hidx : (lookForCache sys filename sm hs).1.index.lookup
      (calculateIdentifier sm hs) = none := by
    have := lookForCache_snd sys filename sm hs
    rw [this] at hmiss
    exact hmiss
  have hl : lookForCache sys filename sm hs = ((lookForCache sys filename sm hs).1, none) := by
    rw [← hmiss]
  unfold saveMasksToDisc
  rw [hl]
  simp only [if_neg hpos, mapInsert, hidx, Option.isSome_none, Bool.false_eq_true, if_false]

theorem readSegments_exact (a b c e f : List Nat) :
    readSegments (a ++ (b ++ (c ++ (e ++ f)))) [true, true, true, true, true]
      [a.length, b.length, c.length, e.length, f.length] =
      [some a, some b, some c, some e, some f] := by
  simp [readSegments, take_append_of_length _ _ rfl, drop_append_of_length _ _ rfl,
    List.take_length]

theorem readMaskFromCache_found (sys1 : CacheSys) (filename : String) (want : List Bool)
    (sm hs off : Nat) (file : List Nat)
    (hne : sys1.index ≠ [])
    (hfound : sys1.index.lookup (calculateIdentifier sm hs) = some off)
    (hfile : sys1.fs.lookup filename = some file)
    (hv1 : ¬ file.length < off + HEADER_SIZE)
    (hv2 : ¬ file.length < off + HEADER_SIZE +
      (decodeHeader ((file.drop off).take HEADER_SIZE)).blobSize) :
    readMaskFromCache sys1 filename want sm hs =
      (sys1, some
        (readSegments
          ((file.drop (off + HEADER_SIZE)).take
            (decodeHeader ((file.drop off).take HEADER_SIZE)).blobSize)
          want (decodeHeader ((file.drop off).take HEADER_SIZE)).sizes,
        (decodeHeader ((file.drop off).take HEADER_SIZE)).sizes,
        (decodeHeader ((file.drop off).take HEADER_SIZE)).ommIndexFormat)) := by
  unfold readMaskFromCache
  rw [lookForCache_nonempty_index sys1 filename sm hs hne, hfound]
  simp only [hfile, if_neg hv1, if_neg hv2]

/-- C2: a record saved under key (stateMask, hash) and then read back through
the cache returns segments byte-identical to the ones written, split per the
header size table, together with the stored index-format tag. -/
theorem claim_C2_cache_roundtrip (sys : CacheSys) (filename : String) (d : OmmData)
    (sm hs fmt : Nat)
    (hmiss : (lookForCache sys filename sm hs).2 = none)
    (seg0 seg1 seg2 seg3 seg4 : List Nat)
    (h0 : d.data.getD 0 none = some seg0) (hl0 : seg0.length = d.sizes.getD 0 0)
    (h1 : d.data.getD 1 none = some seg1) (hl1 : seg1.length = d.sizes.getD 1 0)
    (h2 : d.data.getD 2 none = some seg2) (hl2 : seg2.length = d.sizes.getD 2 0)
    (h3 : d.data.getD 3 none = some seg3) (hl3 : seg3.length = d.sizes.getD 3 0)
    (h4 : d.data.getD 4 none = some seg4) (hl4 : seg4.length = d.sizes.getD 4 0)
    (hsz : ∀ i < 5, d.sizes.getD i 0 < 2 ^ 64)
    (hpos : ((List.range 5).map (fun i => d.sizes.getD i 0)).sum ≠ 0)
    (hsum : ((List.range 5).map (fun i => d.sizes.getD i 0)).sum < 2 ^ 64)
    (hfmt : fmt < 2 ^ 16) :
    (readMaskFromCache (saveMasksToDisc sys filename d sm hs fmt) filename
        [true, true, true, true, true] sm hs).2 =
      some ([some seg0, some seg1, some seg2, some seg3, some seg4],
        [d.sizes.getD 0 0, d.sizes.getD 1 0, d.sizes.getD 2 0, d.sizes.getD 3 0,
          d.sizes.getD 4 0], fmt) := by
  rw [saveMasksToDisc_eq_of_miss sys filename d sm hs fmt hmiss hpos]
  have hsum5 : ((List.range 5).map (fun i => d.sizes.getD i 0)).sum =
      d.sizes.getD 0 0 + d.sizes.getD 1 0 + d.sizes.getD 2 0 +
        d.sizes.getD 3 0 + d.sizes.getD 4 0 := by
    rw [show List.range 5 = [0, 1, 2, 3, 4] from rfl]
    simp
    omega
  have hblobeq : segmentBlob d = seg0 ++ (seg1 ++ (seg2 ++ (seg3 ++ seg4))) := by
    unfold segmentBlob
    rw [show List.range 5 = [0, 1, 2, 3, 4] from rfl]
    simp only [List.map_cons, List.map_nil, List.join, h0, h1, h2, h3, h4, Option.getD_some]
    rw [← hl0, ← hl1, ← hl2, ← hl3, ← hl4]
    simp [List.take_length]
  have hbloblen : (segmentBlob d).length =
      ((List.range 5).map (fun i => d.sizes.getD i 0)).sum := by
    rw [hblobeq, hsum5]
    simp [hl0, hl1, hl2, hl3, hl4]
    omega
  set sys1 := (lookForCache sys filename sm hs).1 with hsys1
  set f0 := ((sys1.fs.lookup filename).getD []) with hf0
  set hdr := mkSaveHeader d sm hs fmt with hhdr
  set fileNew := f0 ++ encodeHeader hdr ++ segmentBlob d with hfileNew
  set R := ({ fs := fsSet sys1.fs filename fileNew, index := (calculateIdentifier sm hs, f0.length) :: sys1.index } : CacheSys) with hR
  have hdec : ((fileNew.drop f0.length).take HEADER_SIZE) = encodeHeader hdr := by
    rw [hfileNew, List.append_assoc, drop_append_of_length _ _ rfl,
      take_append_of_length _ _ (encodeHeader_length hdr)]
  have hdecoded : decodeHeader ((fileNew.drop f0.length).take HEADER_SIZE) =
      normalizeHeader hdr := by
    rw [hdec]
    have hx := decodeHeader_encodeHeader hdr []
    simpa using hx
  have hz0 : d.sizes.getD 0 0 < 2 ^ 64 := hsz 0 (by norm_num)
  have hz1 : d.sizes.getD 1 0 < 2 ^ 64 := hsz 1 (by norm_num)
  have hz2 : d.sizes.getD 2 0 < 2 ^ 64 := hsz 2 (by norm_num)
  have hz3 : d.sizes.getD 3 0 < 2 ^ 64 := hsz 3 (by norm_num)
  have hz4 : d.sizes.getD 4 0 < 2 ^ 64 := hsz 4 (by norm_num)
  have hnorm : normalizeHeader hdr =
      { instanceHash := hs % 2 ^ 64, stateHash := sm % 2 ^ 64,
        sizes := [d.sizes.getD 0 0, d.sizes.getD 1 0, d.sizes.getD 2 0,
          d.sizes.getD 3 0, d.sizes.getD 4 0],
        blobSize := ((List.range 5).map (fun i => d.sizes.getD i 0)).sum,
        ommIndexFormat := fmt } := by
    rw [hhdr]
    simp [normalizeHeader, mkSaveHeader, Nat.mod_eq_of_lt, hz0, hz1, hz2, hz3, hz4,
      hfmt, hsum, List.getD]
    refine ⟨⟨?_, ?_, ?_, ?_, ?_⟩, ?_, hfmt⟩
    · simpa [List.getD] using hz0
    · simpa [List.getD] using hz1
    · simpa [List.getD] using hz2
    · simpa [List.getD] using hz3
    · simpa [List.getD] using hz4
    · simpa [List.getD] using hsum
  have hlenNew : fileNew.length = f0.length + HEADER_SIZE +
      ((List.range 5).map (fun i => d.sizes.getD i 0)).sum := by
    rw [hfileNew, List.length_append, List.length_append, encodeHeader_length, hbloblen]
  have hv1 : ¬ fileNew.length < f0.length + HEADER_SIZE := by omega
  have hv2 : ¬ fileNew.length < f0.length + HEADER_SIZE +
      (decodeHeader ((fileNew.drop f0.length).take HEADER_SIZE)).blobSize := by
    rw [hdecoded, hnorm]
    show ¬ fileNew.length < f0.length + HEADER_SIZE +
      ((List.range 5).map (fun i => d.sizes.getD i 0)).sum
    omega
  have hne : R.index ≠ [] := by simp [hR]
  have hfound : R.index.lookup (calculateIdentifier sm hs) = some f0.length := by
    simp [hR, List.lookup]
  have hfile : R.fs.lookup filename = some fileNew := by
    rw [hR]
    exact lookup_fsSet_self sys1.fs filename fileNew
  rw [readMaskFromCache_found R filename [true, true, true, true, true] sm hs f0.length
    fileNew hne hfound hfile hv1 hv2]
  have hdrop2 : fileNew.drop (f0.length + HEADER_SIZE) = segmentBlob d := by
    rw [← List.drop_drop, hfileNew, List.append_assoc, drop_append_of_length _ _ rfl,
      drop_append_of_length _ _ (encodeHeader_length hdr)]
  rw [hdecoded, hnorm]
  simp only [hdrop2]
  rw [← hbloblen, List.take_length, hblobeq]
  have hsl : [d.sizes.getD 0 0, d.sizes.getD 1 0, d.sizes.getD 2 0, d.sizes.getD 3 0, d.sizes.getD 4 0] = [seg0.length, seg1.length, seg2.length, seg3.length, seg4.length] := by
    rw [hl0, hl1, hl2, hl3, hl4]
  rw [hsl, readSegments_exact seg0 seg1 seg2 seg3 seg4]

/-- C3: writing the same key twice is idempotent: the second SaveMasksToDisc
is a no-op because LookForCache already succeeds, the state (hence the file
size) is unchanged, and the file holds exactly one record for the key. -/
theorem claim_C3_cache_idempotence (fs0 : FileSys) (filename : String) (d d2 : OmmData)
    (sm hs fmt fmt2 : Nat)
    (hnofile : fs0.lookup filename = none)
    (hpos : ((List.range 5).map (fun i => d.sizes.getD i 0)).sum ≠ 0)
    (hsum : ((List.range 5).map (fun i => d.sizes.getD i 0)).sum < 2 ^ 64)
    (hbl : (segmentBlob d).length = ((List.range 5).map (fun i => d.sizes.getD i 0)).sum)
    (hsm : sm < 2 ^ 64) (hhs : hs < 2 ^ 64) :
    saveMasksToDisc (saveMasksToDisc ⟨fs0, []⟩ filename d sm hs fmt) filename d2 sm hs fmt2 =
        saveMasksToDisc ⟨fs0, []⟩ filename d sm hs fmt ∧
      prewarmLoop
        (((saveMasksToDisc ⟨fs0, []⟩ filename d sm hs fmt).fs.lookup filename).getD []) 0 [] =
        some [(calculateIdentifier sm hs, 0)] := by
  have hmiss : (lookForCache ⟨fs0, []⟩ filename sm hs).2 = none := by
    simp [lookForCache, hnofile, List.lookup]
  have hsave := saveMasksToDisc_eq_of_miss ⟨fs0, []⟩ filename d sm hs fmt hmiss hpos
  have hlc : lookForCache ⟨fs0, []⟩ filename sm hs = (⟨fs0, []⟩, none) := by
    simp [lookForCache, hnofile, List.lookup]
  rw [hlc] at hsave
  simp only at hsave
  rw [hsave]
  set hdr := mkSaveHeader d sm hs fmt with hhdr
  have hf0 : ((⟨fs0, []⟩ : CacheSys).fs.lookup filename).getD [] = ([] : List Nat) := by
    simp [hnofile]
  rw [hf0] at hsave ⊢
  constructor
  · unfold saveMasksToDisc
    rw [lookForCache_nonempty_index _ _ _ _ (by simp)]
    simp [List.lookup]
  · rw [lookup_fsSet_self]
    simp only [Option.getD_some, List.nil_append]
    have hlen : (encodeHeader hdr ++ segmentBlob d).length =
        HEADER_SIZE + ((List.range 5).map (fun i => d.sizes.getD i 0)).sum := by
      rw [List.length_append, encodeHeader_length, hbl]
    rw [prewarmLoop]
    rw [dif_neg (by omega)]
    have hdec : ((encodeHeader hdr ++ segmentBlob d).drop 0).take HEADER_SIZE =
        encodeHeader hdr := by
      rw [List.drop_zero, take_append_of_length _ _ (encodeHeader_length hdr)]
    have hde : decodeHeader (encodeHeader hdr) = normalizeHeader hdr := by
      have hx := decodeHeader_encodeHeader hdr []
      simpa using hx
    rw [hdec, hde]
    dsimp only
    have hbs : (normalizeHeader hdr).blobSize =
        ((List.range 5).map (fun i => d.sizes.getD i 0)).sum := by
      rw [hhdr]
      show ((List.range 5).map (fun i => d.sizes.getD i 0)).sum % 2 ^ 64 = _
      exact Nat.mod_eq_of_lt hsum
    have hsh : (normalizeHeader hdr).stateHash = sm := by
      rw [hhdr]
      show sm % 2 ^ 64 = sm
      exact Nat.mod_eq_of_lt hsm
    have hih : (normalizeHeader hdr).instanceHash = hs := by
      rw [hhdr]
      show hs % 2 ^ 64 = hs
      exact Nat.mod_eq_of_lt hhs
    rw [hbs, hsh, hih]
    rw [dif_neg (by omega)]
    rw [if_pos (by omega)]
    simp [mapInsert]

theorem serializeRecord_length (r : CacheRecord) (h : RecordWF r) :
    (serializeRecord r).length = HEADER_SIZE + r.header.blobSize := by
  rw [serializeRecord, List.length_append, encodeHeader_length, h.1]

theorem prewarm_trunc : ∀ (rs : List CacheRecord) (F : List Nat) (pos : Nat)
    (idx : List (Nat × Nat)),
    (∀ r ∈ rs, RecordWF r) →
    pos ≤ F.length →
    F.drop pos = (serializeRecords rs).take (F.length - pos) →
    F.length - pos < (serializeRecords rs).length →
    (F.length - pos) ∉ boundaryNats rs →
    prewarmLoop F pos idx = none := by
  intro rs
  induction rs with
  | nil =>
    intro F pos idx _ _ _ hlt _
    simp [serializeRecords] at hlt
  | cons r rs ih =>
    intro F pos idx hwf hpos hdrop hlt hnb
    have hrwf : RecordWF r := hwf r (by simp)
    have hbz : 0 < r.header.blobSize := hrwf.2.1
    have hSlen : (serializeRecord r).length = HEADER_SIZE + r.header.blobSize :=
      serializeRecord_length r hrwf
    have hS : serializeRecords (r :: rs) = serializeRecord r ++ serializeRecords rs := by
      simp [serializeRecords]
    have hd0 : F.length - pos ∉ [ (0 : Nat) ] := by
      intro hc
      simp at hc
      exact hnb (by simp [boundaryNats, hc])
    have hdne : F.length - pos ≠ 0 := by simpa using hd0
    rw [prewarmLoop]
    by_cases hc1 : F.length < pos + HEADER_SIZE
    · rw [dif_pos hc1]
    · rw [dif_neg hc1]
      have hd72 : HEADER_SIZE ≤ F.length - pos := by omega
      have hdec : (F.drop pos).take HEADER_SIZE = encodeHeader r.header := by
        rw [hdrop, hS, List.take_take, Nat.min_eq_left hd72, serializeRecord,
          List.append_assoc, take_append_of_length _ _ (encodeHeader_length r.header)]
      rw [hdec]
      have hde : decodeHeader (encodeHeader r.header) = normalizeHeader r.header := by
        have hx := decodeHeader_encodeHeader r.header []
        simpa using hx
      rw [hde]
      dsimp only
      have hbs : (normalizeHeader r.header).blobSize = r.header.blobSize := by
        show r.header.blobSize % 2 ^ 64 = r.header.blobSize
        exact Nat.mod_eq_of_lt hrwf.2.2
      rw [hbs]
      by_cases hc2 : F.length < pos + HEADER_SIZE + r.header.blobSize
      · rw [dif_pos hc2]
      · rw [dif_neg hc2]
        have hdL : HEADER_SIZE + r.header.blobSize ≤ F.length - pos := by omega
        have hdneL : F.length - pos ≠ HEADER_SIZE + r.header.blobSize := by
          intro hc
          apply hnb
          simp only [boundaryNats, List.mem_cons]
          right
          refine List.mem_map.mpr ⟨0, ?_, by omega⟩
          cases rs with
          | nil => simp [boundaryNats]
          | cons a l => simp [boundaryNats]
        rw [if_neg (by omega)]
        apply ih
        · intro x hx
          exact hwf x (by simp [hx])
        · omega
        · have h1 : F.drop (pos + (HEADER_SIZE + r.header.blobSize)) =
              (F.drop pos).drop (HEADER_SIZE + r.header.blobSize) := by
            rw [List.drop_drop]
          rw [show pos + HEADER_SIZE + r.header.blobSize =
            pos + (HEADER_SIZE + r.header.blobSize) by omega, h1, hdrop, hS]
          rw [List.drop_take]
          rw [drop_append_of_length _ _ hSlen]
          congr 1
          omega
        · rw [hS, List.length_append] at hlt
          omega
        · intro hc
          apply hnb
          simp only [boundaryNats, List.mem_cons]
          right
          refine List.mem_map.mpr ⟨F.length - (pos + HEADER_SIZE + r.header.blobSize), hc, ?_⟩
          omega

/-- C4: truncating a valid cache file strictly inside a record makes the next
lookup delete the file, clear the index and answer not-found, and a read
answers not-found as well; no partial-record recovery happens. The bound
hreal keeps every position-plus-chunk-size sum met by ValidateChunkRead below
2 ^ 64 (every record end is at most the serialized length, and every scan
position is below it), so on every file in this scope the unbounded
comparisons below coincide with the wrapping size_t comparison of the
source; any file that fits on a real disk satisfies the bound. -/
theorem claim_C4_corruption_recovery (rs : List CacheRecord) (t : Nat) (fs0 : FileSys)
    (filename : String) (want : List Bool) (sm hs : Nat)
    (hwf : ∀ r ∈ rs, RecordWF r)
    (_hreal : (serializeRecords rs).length + HEADER_SIZE < 2 ^ 64)
    (ht1 : t < (serializeRecords rs).length)
    (ht2 : t ∉ boundaryNats rs)
    (hfile : fs0.lookup filename = some ((serializeRecords rs).take t)) :
    lookForCache ⟨fs0, []⟩ filename sm hs = (⟨fsRemove fs0 filename, []⟩, none) ∧
      (fsRemove fs0 filename).lookup filename = none ∧
      (readMaskFromCache ⟨fs0, []⟩ filename want sm hs).2 = none := by
  have htlen : ((serializeRecords rs).take t).length = t := by
    rw [List.length_take]
    omega
  have hpw : prewarmLoop ((serializeRecords rs).take t) 0 [] = none := by
    apply prewarm_trunc rs _ 0 [] hwf (by omega)
    · rw [List.drop_zero, htlen, Nat.sub_zero]
    · rw [htlen]
      omega
    · rw [htlen]
      exact ht2
  have hlook : lookForCache ⟨fs0, []⟩ filename sm hs = (⟨fsRemove fs0 filename, []⟩, none) := by
    unfold lookForCache
    simp only [List.isEmpty_nil, if_pos trivial, hfile, hpw]
    simp [List.lookup]
  refine ⟨hlook, lookup_fsRemove_self fs0 filename, ?_⟩
  unfold readMaskFromCache
  rw [hlook]

theorem triangle_succ (s : Nat) : (s + 1) * (s + 2) / 2 = s * (s + 1) / 2 + (s + 1) := by
  obtain ⟨k, hk⟩ := Nat.even_mul_succ_self s
  have hexp : (s + 1) * (s + 2) = s * (s + 1) + 2 * (s + 1) := by ring
  omega

theorem triangle_mono {x y : Nat} (h : x ≤ y) : x * (x + 1) / 2 ≤ y * (y + 1) / 2 := by
  have : x * (x + 1) ≤ y * (y + 1) := Nat.mul_le_mul h (by omega)
  omega

theorem cantor_key (s b s2 b2 : Nat) (hb : b ≤ s) (hb2 : b2 ≤ s2)
    (heq : s * (s + 1) / 2 + b = s2 * (s2 + 1) / 2 + b2) : s = s2 ∧ b = b2 := by
  rcases Nat.lt_trichotomy s s2 with hlt | heqs | hgt
  · exfalso
    have h1 : s * (s + 1) / 2 + b < (s + 1) * (s + 2) / 2 := by
      rw [triangle_succ]
      omega
    have h2 : (s + 1) * (s + 2) / 2 ≤ s2 * (s2 + 1) / 2 := triangle_mono (by omega)
    omega
  · constructor
    · exact heqs
    · subst heqs
      omega
  · exfalso
    have h1 : s2 * (s2 + 1) / 2 + b2 < (s2 + 1) * (s2 + 2) / 2 := by
      rw [triangle_succ]
      omega
    have h2 : (s2 + 1) * (s2 + 2) / 2 ≤ s * (s + 1) / 2 := triangle_mono (by omega)
    omega

theorem calculateIdentifier_small (a b : Nat) (h : a + b < 2 ^ 32) :
    calculateIdentifier a b = (a + b) * (a + b + 1) / 2 + b := by
  unfold calculateIdentifier
  have h1 : (a + b) % 2 ^ 64 = a + b := Nat.mod_eq_of_lt (by omega)
  rw [h1]
  dsimp only
  have h2 : (a + b + 1) % 2 ^ 64 = a + b + 1 := Nat.mod_eq_of_lt (by omega)
  rw [h2]
  have h3 : (a + b) * (a + b + 1) < 2 ^ 64 := by
    calc (a + b) * (a + b + 1) < 2 ^ 32 * 2 ^ 32 :=
      Nat.mul_lt_mul_of_lt_of_le h (by omega) (by omega)
    _ = 2 ^ 64 := by norm_num
  rw [Nat.mod_eq_of_lt h3]
  have h4 : (a + b) * (a + b + 1) / 2 + b < 2 ^ 64 := by omega
  rw [Nat.mod_eq_of_lt h4]

/-- C7: the uint64 pairing fold CalculateIdentifier is not collision-free
over all inputs — two distinct uint64 input pairs share an identifier — and
it is collision-free on bounded small inputs (hash sums below 2 ^ 32). -/
theorem claim_C7_pairing_collisions :
    (∃ a b a2 b2 : Nat, a < 2 ^ 64 ∧ b < 2 ^ 64 ∧ a2 < 2 ^ 64 ∧ b2 < 2 ^ 64 ∧
      (a, b) ≠ (a2, b2) ∧ calculateIdentifier a b = calculateIdentifier a2 b2) ∧
    (∀ a b a2 b2 : Nat, a + b < 2 ^ 32 → a2 + b2 < 2 ^ 32 →
      calculateIdentifier a b = calculateIdentifier a2 b2 → a = a2 ∧ b = b2) := by
  constructor
  · refine ⟨2 ^ 64 - 1, 1, 1, 0, by norm_num, by norm_num, by norm_num, by norm_num,
      by simp, ?_⟩
    decide
  · intro a b a2 b2 h1 h2 heq
    rw [calculateIdentifier_small a b h1, calculateIdentifier_small a2 b2 h2] at heq
    have := cantor_key (a + b) b (a2 + b2) b2 (by omega) (by omega) heq
    omega

/-- C1: for every sequence of per-job size estimates, every per-type budget
and every item cap, the batches returned by GetGpuBakerBatches form a
contiguous, ordered, gap-free and overlap-free partition of the index range,
and every job index belongs to exactly one batch. -/
theorem claim_C1_batch_coverage (geometries : List (List Nat)) (budgets : List Nat)
    (batchSize : Nat) :
    IsPartition (getGpuBakerBatches geometries budgets batchSize) 0 geometries.length ∧
    ∀ j, j < geometries.length →
      ∃! k : Nat, k < (getGpuBakerBatches geometries budgets batchSize).length ∧
        ((getGpuBakerBatches geometries budgets batchSize).getD k ⟨0, 0⟩).offset ≤ j ∧
        j < ((getGpuBakerBatches geometries budgets batchSize).getD k ⟨0, 0⟩).offset +
          ((getGpuBakerBatches geometries budgets batchSize).getD k ⟨0, 0⟩).count := by
  refine ⟨getGpuBakerBatches_partition geometries budgets batchSize, ?_⟩
  intro j hj
  exact isPartition_unique_mem (getGpuBakerBatches geometries budgets batchSize) 0
    geometries.length (getGpuBakerBatches_partition geometries budgets batchSize) j
    (Nat.zero_le j) hj

theorem claim_C1_batch_coverage_witness :
    IsPartition (getGpuBakerBatches [[5], [5], [5]] [12] 3) 0 3 ∧
    ∃! k : Nat, k < (getGpuBakerBatches [[5], [5], [5]] [12] 3).length ∧
      ((getGpuBakerBatches [[5], [5], [5]] [12] 3).getD k ⟨0, 0⟩).offset ≤ 1 ∧
      1 < ((getGpuBakerBatches [[5], [5], [5]] [12] 3).getD k ⟨0, 0⟩).offset +
        ((getGpuBakerBatches [[5], [5], [5]] [12] 3).getD k ⟨0, 0⟩).count :=
  ⟨(claim_C1_batch_coverage [[5], [5], [5]] [12] 3).1,
    (claim_C1_batch_coverage [[5], [5], [5]] [12] 3).2 1 (by decide)⟩

/-- C5 counterexample to the claim as stated: the size_t accumulation wraps,
so with budget 2 ^ 63 and job sizes 2 ^ 63 - 1 and 2 ^ 63 + 2 the wrapped
running total is 1 and both jobs are accepted into one batch whose true
per-type sum 2 ^ 64 + 1 exceeds the budget. -/
theorem claim_C5_counterexample :
    ¬ (∀ b ∈ getGpuBakerBatches [[2 ^ 63 - 1], [2 ^ 63 + 2]] [2 ^ 63] 10, 1 < b.count →
      ∀ y < ([2 ^ 63] : List Nat).length,
        typeSum [[2 ^ 63 - 1], [2 ^ 63 + 2]] y b.offset b.count ≤
          ([2 ^ 63] : List Nat).getD y 0) := by
  decide

/-- C5 amended: when no per-type accumulation can overflow 64 bits — the
per-type total of all job size estimates is below 2 ^ 64, true of every
machine-realizable set of size estimates — every batch with more than one job keeps,
for every resource type, the summed size estimates of its jobs within the
budget of that type; only a single-job batch may exceed a budget. -/
theorem claim_C5_batch_budget (geometries : List (List Nat)) (budgets : List Nat)
    (batchSize : Nat) (hall : ∀ s ∈ geometries, s.length = budgets.length)
    (htot : ∀ y < budgets.length, typeSum geometries y 0 geometries.length < 2 ^ 64) :
    ∀ b ∈ getGpuBakerBatches geometries budgets batchSize, 1 < b.count →
      ∀ y < budgets.length, typeSum geometries y b.offset b.count ≤ budgets.getD y 0 :=
  getGpuBakerBatches_budget geometries budgets batchSize hall htot

theorem claim_C5_batch_budget_witness :
    ((∀ s ∈ [[5], [5], [5]], s.length = [12].length) ∧
      (∀ y < ([12] : List Nat).length, typeSum [[5], [5], [5]] y 0 3 < 2 ^ 64)) ∧
    ∀ b ∈ getGpuBakerBatches [[5], [5], [5]] [12] 3, 1 < b.count →
      ∀ y < [12].length, typeSum [[5], [5], [5]] y b.offset b.count ≤ [12].getD y 0 :=
  ⟨⟨by decide, by decide⟩, claim_C5_batch_budget [[5], [5], [5]] [12] 3 (by decide) (by decide)⟩

/-- C9: the two worked scheduler examples of the spec: 7 jobs of size 5 with
budget 12 and item cap 3 give batches {0,2},{2,2},{4,2},{6,1}; 5 jobs of size
10 with budget 25 and no binding item cap give {0,2},{2,2},{4,1}. -/
theorem claim_C9_worked_examples :
    getGpuBakerBatches [[5], [5], [5], [5], [5], [5], [5]] [12] 3 =
      [⟨0, 2⟩, ⟨2, 2⟩, ⟨4, 2⟩, ⟨6, 1⟩] ∧
    getGpuBakerBatches [[10], [10], [10], [10], [10]] [25] 1000 =
      [⟨0, 2⟩, ⟨2, 2⟩, ⟨4, 1⟩] := by
  decide

theorem claim_C2_cache_roundtrip_witness :
    (lookForCache ⟨[], []⟩ "scene" 100 200).2 = none ∧
    (readMaskFromCache (saveMasksToDisc ⟨[], []⟩ "scene" exampleOmmData 100 200 7) "scene"
        [true, true, true, true, true] 100 200).2 =
      some ([some [1, 2, 3], some [4], some [], some [], some []],
        [exampleOmmData.sizes.getD 0 0, exampleOmmData.sizes.getD 1 0,
          exampleOmmData.sizes.getD 2 0, exampleOmmData.sizes.getD 3 0,
          exampleOmmData.sizes.getD 4 0], 7) :=
  ⟨by decide,
    claim_C2_cache_roundtrip ⟨[], []⟩ "scene" exampleOmmData 100 200 7 (by decide)
      [1, 2, 3] [4] [] [] [] (by decide) (by decide) (by decide) (by decide) (by decide)
      (by decide) (by decide) (by decide) (by decide) (by decide) (by decide) (by decide)
      (by decide) (by decide)⟩

theorem claim_C3_cache_idempotence_witness :
    List.lookup "scene" ([] : FileSys) = none ∧
    (saveMasksToDisc (saveMasksToDisc ⟨[], []⟩ "scene" exampleOmmData 100 200 7) "scene"
        exampleOmmData 100 200 9 =
      saveMasksToDisc ⟨[], []⟩ "scene" exampleOmmData 100 200 7 ∧
    prewarmLoop (((saveMasksToDisc ⟨[], []⟩ "scene" exampleOmmData 100 200 7).fs.lookup
        "scene").getD []) 0 [] = some [(calculateIdentifier 100 200, 0)]) :=
  ⟨rfl, claim_C3_cache_idempotence [] "scene" exampleOmmData exampleOmmData 100 200 7 9 rfl
    (by decide) (by decide) (by decide) (by decide) (by decide)⟩

theorem claim_C4_corruption_recovery_witness :
    ((∀ r ∈ [exampleRecord], RecordWF r) ∧
      (serializeRecords [exampleRecord]).length + HEADER_SIZE < 2 ^ 64 ∧
      75 < (serializeRecords [exampleRecord]).length ∧
      75 ∉ boundaryNats [exampleRecord]) ∧
    lookForCache ⟨[("scene", (serializeRecords [exampleRecord]).take 75)], []⟩ "scene" 1 2 =
      (⟨fsRemove [("scene", (serializeRecords [exampleRecord]).take 75)] "scene", []⟩, none) ∧
    (fsRemove [("scene", (serializeRecords [exampleRecord]).take 75)] "scene").lookup
      "scene" = none ∧
    (readMaskFromCache ⟨[("scene", (serializeRecords [exampleRecord]).take 75)], []⟩ "scene"
      [true, true, true, true, true] 1 2).2 = none :=
  ⟨⟨by decide, by decide, by decide, by decide⟩,
    claim_C4_corruption_recovery [exampleRecord] 75
      [("scene", (serializeRecords [exampleRecord]).take 75)] "scene"
      [true, true, true, true, true] 1 2 (by decide) (by decide) (by decide) (by decide) rfl⟩

theorem claim_C7_pairing_collisions_witness :
    (1 + 2 < 2 ^ 32 ∧ 1 + 2 < 2 ^ 32) ∧ ((1 : Nat) = 1 ∧ (2 : Nat) = 2) :=
  ⟨⟨by decide, by decide⟩,
    claim_C7_pairing_collisions.2 1 2 1 2 (by decide) (by decide) rfl⟩

/-- C10: the in-memory index is process-wide and keeps no record of the file
it was built from: once it is non-empty, a lookup with any filename is
answered from the index alone, with no filesystem access and with the same
result for every filename. -/
theorem claim_C10_process_wide_index (sys : CacheSys) (f1 f2 : String) (sm hs : Nat)
    (h : sys.index ≠ []) :
    lookForCache sys f1 sm hs = (sys, sys.index.lookup (calculateIdentifier sm hs)) ∧
    lookForCache sys f1 sm hs = lookForCache sys f2 sm hs := by
  have h1 := lookForCache_nonempty_index sys f1 sm hs h
  have h2 := lookForCache_nonempty_index sys f2 sm hs h
  exact ⟨h1, by rw [h1, h2]⟩

theorem claim_C10_process_wide_index_witness :
    (⟨[("a", [1, 2])], [(5, 9)]⟩ : CacheSys).index ≠ [] ∧
    lookForCache ⟨[("a", [1, 2])], [(5, 9)]⟩ "b" 0 0 =
      (⟨[("a", [1, 2])], [(5, 9)]⟩,
        (([(5, 9)] : List (Nat × Nat)).lookup (calculateIdentifier 0 0))) ∧
    lookForCache ⟨[("a", [1, 2])], [(5, 9)]⟩ "b" 0 0 =
      lookForCache ⟨[("a", [1, 2])], [(5, 9)]⟩ "c" 0 0 :=
  ⟨by decide,
    (claim_C10_process_wide_index ⟨[("a", [1, 2])], [(5, 9)]⟩ "b" "c" 0 0 (by decide)).1,
    (claim_C10_process_wide_index ⟨[("a", [1, 2])], [(5, 9)]⟩ "b" "c" 0 0 (by decide)).2⟩

/-- C6: CalculateSateHash depends on every configuration field the spec lists
(shown at exhibited configurations: subdivision level, format, mip bias,
filter, baker type, a GPU-baker flag, and for the CPU baker mip count and a
CPU-baker flag), the changed hash changes the CacheKey and makes the lookup
of a record written under the old configuration miss; the hash is invariant
under the purely operational fields enableCache, enableDebugMode and
buildFrameId for every configuration. -/
theorem claim_C6_key_sensitivity :
    (∀ (d : OmmBakeDesc) (b1 b2 : Bool) (n : Nat),
      calculateSateHash
          { d with enableCache := b1, enableDebugMode := b2, buildFrameId := n } =
        calculateSateHash d) ∧
    calculateSateHash { defaultBakeDesc with subdivisionLevel := 10 } ≠
      calculateSateHash defaultBakeDesc ∧
    calculateSateHash { defaultBakeDesc with format := 0 } ≠
      calculateSateHash defaultBakeDesc ∧
    calculateSateHash { defaultBakeDesc with mipBias := 1 } ≠
      calculateSateHash defaultBakeDesc ∧
    calculateSateHash { defaultBakeDesc with filter := 0 } ≠
      calculateSateHash defaultBakeDesc ∧
    calculateSateHash { defaultBakeDesc with type := 1 } ≠
      calculateSateHash defaultBakeDesc ∧
    calculateSateHash
        { defaultBakeDesc with gpuFlags := ⟨true, true, true, true, true⟩ } ≠
      calculateSateHash defaultBakeDesc ∧
    calculateSateHash { defaultBakeDesc with type := 1, mipCount := 2 } ≠
      calculateSateHash { defaultBakeDesc with type := 1 } ∧
    calculateSateHash
        { defaultBakeDesc with type := 1, cpuFlags := ⟨true, true, true, false, true⟩ } ≠
      calculateSateHash { defaultBakeDesc with type := 1 } ∧
    calculateIdentifier (calculateSateHash { defaultBakeDesc with subdivisionLevel := 10 })
        42 ≠
      calculateIdentifier (calculateSateHash defaultBakeDesc) 42 ∧
    (lookForCache
        (saveMasksToDisc ⟨[], []⟩ "scene" exampleOmmData
          (calculateSateHash defaultBakeDesc) 42 7)
        "scene" (calculateSateHash { defaultBakeDesc with subdivisionLevel := 10 }) 42).2 =
      none := by
  refine ⟨fun d b1 b2 n => rfl, ?_⟩
  decide

/-- C8 counterexample to the claim as stated: in the async rebuild trace the
old masked BLASes and OMM arrays are destroyed (ReleaseMaskedGeometry)
BEFORE the BuildArtifacts step of the new batch, not after it. -/
theorem claim_C8_counterexample :
    ¬ ((rebuildOmmGeometryAsyncTrace 1).indexOf (OmmEvent.buildArtifacts 0) <
      (rebuildOmmGeometryAsyncTrace 1).indexOf OmmEvent.releaseMaskedGeometry) := by
  decide

/-- C8 amended: the lookup table is cleared at the moment the async run
starts (first event), the frame wait precedes the release, and the old
masked geometry is destroyed at the start of the geometry update — before,
not after, every BuildArtifacts step of the new batch. -/
theorem claim_C8_amended_release_order (n : Nat) :
    (rebuildOmmGeometryAsyncTrace n).head? = some OmmEvent.clearLookupTable ∧
    (rebuildOmmGeometryAsyncTrace n).indexOf OmmEvent.waitFrames <
      (rebuildOmmGeometryAsyncTrace n).indexOf OmmEvent.releaseMaskedGeometry ∧
    ∀ b, b < n →
      (rebuildOmmGeometryAsyncTrace n).indexOf OmmEvent.releaseMaskedGeometry <
        (rebuildOmmGeometryAsyncTrace n).indexOf (OmmEvent.buildArtifacts b) := by
  refine ⟨rfl, ?_, ?_⟩
  · show (1 : Nat) < 2
    omega
  · intro b hb
    have h2 : (rebuildOmmGeometryAsyncTrace n).indexOf OmmEvent.releaseMaskedGeometry =
        2 := rfl
    have h4 : 4 ≤ (rebuildOmmGeometryAsyncTrace n).indexOf (OmmEvent.buildArtifacts b) := by
      show 4 ≤ (OmmEvent.clearLookupTable :: OmmEvent.waitFrames ::
        OmmEvent.releaseMaskedGeometry :: OmmEvent.fillBakerInputs :: _).indexOf
        (OmmEvent.buildArtifacts b)
      rw [List.indexOf_cons_ne _ (by simp), List.indexOf_cons_ne _ (by simp),
        List.indexOf_cons_ne _ (by simp), List.indexOf_cons_ne _ (by simp)]
      omega
    omega

theorem claim_C8_amended_release_order_witness :
    (rebuildOmmGeometryAsyncTrace 1).head? = some OmmEvent.clearLookupTable ∧
    (rebuildOmmGeometryAsyncTrace 1).indexOf OmmEvent.releaseMaskedGeometry <
      (rebuildOmmGeometryAsyncTrace 1).indexOf (OmmEvent.buildArtifacts 0) :=
  ⟨(claim_C8_amended_release_order 1).1,
    (claim_C8_amended_release_order 1).2.2 0 (by decide)⟩
